import Mathlib

/-!
# Kvazar guild playback engine — verification development

Shallow embedding of the per-guild playback engine of the Kvazar Discord
music bot (Go sources `internal/bot/player.go`, `internal/media/track.go`),
together with theorems settling the frozen specification claims.

Conventions of the embedding:
* Go slices become `List`, Go `map[string]string` becomes an association
  list `List (String × String)` (key-value pairs; Go map iteration order is
  arbitrary, which the permutation-invariance theorems account for).
* `time.Duration` (non-negative in this program: durations come from the
  resolver) becomes `Nat` nanoseconds; `int(d.Seconds())` truncates, which
  for whole-nanosecond inputs is `Nat` division by 10^9.
* Pointers that are only compared against `nil` (the cancellation handle,
  the pause channel, the voice connection, the idle timer) become `Bool`
  or `Option` presence flags; invoking the cancellation handle is recorded
  in a `cancelInvoked` ghost field, and values sent on the pause channel
  are recorded in a `pauseSignals` ghost list.
* The concurrent `playLoop` goroutine is decomposed into its mutex-guarded
  critical sections; a program counter `Pc` records which section runs
  next, and an interleaving of command calls and task sections is a list
  of `Event`s folded over the state.
-/

namespace Kvazar

/-! ## Track (`internal/media/track.go`) -/

/-- `media.Track` restricted to the fields the playback engine reads.
`duration` is `time.Duration` in nanoseconds (0 = indeterminate/live). -/
structure Track where
  title : String := ""
  streamURL : String := ""
  duration : Nat := 0
  httpHeaders : List (String × String) := []
  deriving Repr, DecidableEq

/-- Go's `fmt.Sprintf("%02d", n)` for the non-negative values produced by
`HumanDuration` (minutes and seconds, both `< 60`). -/
def pad2 (n : Nat) : String :=
  if n < 10 then "0" ++ toString n else toString n

/-- `Track.HumanDuration` (`track.go`): `"live"` when the duration is zero,
else `MM:SS` below one hour and `H:MM:SS` from one hour up.
`seconds := int(t.Duration.Seconds())` truncates to whole seconds, i.e.
division of the nanosecond count by 10^9. -/
def Track.humanDuration (t : Track) : String :=
  if t.duration = 0 then "live"
  else
    let seconds := t.duration / 1000000000
    let hours := seconds / 3600
    let minutes := (seconds % 3600) / 60
    let secs := seconds % 60
    if hours > 0 then
      toString hours ++ ":" ++ pad2 minutes ++ ":" ++ pad2 secs
    else
      pad2 minutes ++ ":" ++ pad2 secs

/-! ## Pipeline constants (`player.go` `const` block) -/

/-- 20ms at 48kHz. -/
def pcmFrameSize : Nat := 960

def pcmChannelCount : Nat := 2

def sampleRate : Nat := 48000

/-- 128 kbps. -/
def opusBitrate : Nat := 128000

def opusFrameCapacity : Nat := 4096

/-- `streamTrack` reads PCM into `byteBuf` with
`len(byteBuf) = len(pcmBuf)*2 = pcmFrameSize*pcmChannelCount*2`. -/
def byteBufLen : Nat := pcmFrameSize * pcmChannelCount * 2

/-! ## ffmpeg argument construction (`player.go` `buildFFMpegArgs`) -/

/-- One `fmt.Sprintf("%s: %s", k, v)` header line. -/
def headerLine (kv : String × String) : String := kv.1 ++ ": " ++ kv.2

/-- Lexicographic `≤` on character lists: the order `sort.Strings` sorts by
(Go compares strings byte-wise; UTF-8 byte order coincides with codepoint
order, so comparing the codepoint lists is the same order). -/
def charsLe : List Char → List Char → Bool
  | [], _ => true
  | _ :: _, [] => false
  | a :: as, b :: bs => if a = b then charsLe as bs else decide (a < b)

/-- Go's `a <= b` on strings. -/
def strLe (a b : String) : Bool := charsLe a.data b.data

/-- `headersToLines`: empty string for an empty map, else the `"K: V"`
lines sorted lexicographically (`sort.Strings`), joined with CRLF
(`strings.Join(pairs, "\r\n")`) plus a trailing CRLF. -/
def headersToLines (headers : List (String × String)) : String :=
  if headers = [] then ""
  else String.intercalate "\r\n" ((headers.map headerLine).mergeSort strLe) ++ "\r\n"

/-- The leading network auto-reconnect flags of `buildFFMpegArgs`. -/
def reconnectArgs : List String :=
  ["-reconnect", "1", "-reconnect_streamed", "1", "-reconnect_delay_max", "5"]

/-- The input/output flags appended after the optional headers argument:
input URL, no video, loudness normalisation, signed 16-bit little-endian
PCM, 2 channels, 48000 Hz, to stdout. -/
def outputArgs (t : Track) : List String :=
  ["-i", t.streamURL, "-vn",
   "-af", "loudnorm=I=-16:LRA=11:TP=-1.5",
   "-f", "s16le",
   "-ac", toString pcmChannelCount,
   "-ar", toString sampleRate,
   "pipe:1"]

/-- `buildFFMpegArgs`: reconnect flags, then `-headers` with the serialized
header lines when they are non-empty, then the input/output flags. -/
def buildFFMpegArgs (t : Track) : List String :=
  let headerLines := headersToLines t.httpHeaders
  let args := if headerLines = "" then reconnectArgs
              else reconnectArgs ++ ["-headers", headerLines]
  args ++ outputArgs t

end Kvazar

namespace Kvazar

theorem charsLe_trans : ∀ as bs cs : List Char,
    charsLe as bs = true → charsLe bs cs = true → charsLe as cs = true
  | [], _, _, _, _ => rfl
  | _ :: _, [], _, h, _ => by simp [charsLe] at h
  | _ :: _, _ :: _, [], _, h => by simp [charsLe] at h
  | a :: as, b :: bs, c :: cs, h₁, h₂ => by
    simp only [charsLe] at h₁ h₂ ⊢
    by_cases hab : a = b
    · subst hab
      rw [if_pos rfl] at h₁
      by_cases hbc : a = c
      · subst hbc
        rw [if_pos rfl] at h₂ ⊢
        exact charsLe_trans as bs cs h₁ h₂
      · rw [if_neg hbc] at h₂ ⊢
        exact h₂
    · rw [if_neg hab] at h₁
      by_cases hbc : b = c
      · subst hbc
        rw [if_neg hab]
        exact h₁
      · rw [if_neg hbc] at h₂
        simp only [decide_eq_true_eq] at h₁ h₂
        have hac : a < c := lt_trans h₁ h₂
        rw [if_neg (ne_of_lt hac)]
        simpa using hac

theorem charsLe_total : ∀ as bs : List Char,
    charsLe as bs = true ∨ charsLe bs as = true
  | [], _ => Or.inl rfl
  | _ :: _, [] => Or.inr rfl
  | a :: as, b :: bs => by
    by_cases hab : a = b
    · subst hab
      simpa [charsLe] using charsLe_total as bs
    · rcases lt_or_gt_of_ne hab with h | h
      · exact Or.inl (by simp [charsLe, if_neg hab, h])
      · exact Or.inr (by simp [charsLe, if_neg (Ne.symm hab), h])

theorem charsLe_antisymm : ∀ as bs : List Char,
    charsLe as bs = true → charsLe bs as = true → as = bs
  | [], [], _, _ => rfl
  | [], _ :: _, _, h => by simp [charsLe] at h
  | _ :: _, [], h, _ => by simp [charsLe] at h
  | a :: as, b :: bs, h₁, h₂ => by
    by_cases hab : a = b
    · subst hab
      simp only [charsLe, if_pos rfl] at h₁ h₂
      rw [charsLe_antisymm as bs h₁ h₂]
    · simp only [charsLe, if_neg hab, if_neg (Ne.symm hab), decide_eq_true_eq] at h₁ h₂
      exact absurd h₂ (not_lt_of_gt h₁)

theorem strLe_trans (a b c : String) (h₁ : strLe a b = true) (h₂ : strLe b c = true) :
    strLe a c = true :=
  charsLe_trans _ _ _ h₁ h₂

theorem strLe_total (a b : String) : strLe a b || strLe b a := by
  rcases charsLe_total a.data b.data with h | h <;> simp [strLe, h]

theorem strLe_antisymm (a b : String) (h₁ : strLe a b = true) (h₂ : strLe b a = true) :
    a = b := by
  cases a; cases b
  exact congrArg String.mk (charsLe_antisymm _ _ h₁ h₂)

/-- Sorting with `strLe` is a function of the multiset of inputs: permuted
inputs sort to the identical list. -/
theorem mergeSort_strLe_congr_perm {l₁ l₂ : List String} (h : l₁.Perm l₂) :
    l₁.mergeSort strLe = l₂.mergeSort strLe := by
  haveI : IsAntisymm String (fun a b => strLe a b = true) := ⟨strLe_antisymm⟩
  refine List.eq_of_perm_of_sorted (r := fun a b => strLe a b = true)
    ((List.mergeSort_perm l₁ strLe).trans (h.trans (List.mergeSort_perm l₂ strLe).symm))
    ?_ ?_
  · simpa using List.sorted_mergeSort (fun a b c => strLe_trans a b c) strLe_total l₁
  · simpa using List.sorted_mergeSort (fun a b c => strLe_trans a b c) strLe_total l₂

end Kvazar

namespace Kvazar

/-! ## Guild player state (`player.go` `Player` struct)

One `Player` protects all of its mutable fields with a single mutex; the
state below is the lock-protected part.  `cancelPlayback` records whether
the `context.CancelFunc` field is non-nil; `cancelInvoked` is a ghost flag
recording that the function was called (Go's `cancel()` is idempotent).
`pauseChan` records whether the pause channel field is non-nil and
`pauseSignals` the values sent on it.  `voice` holds the channel id of a
bound voice transport, `timerArmed` whether the idle-disconnect timer has
a pending firing. -/

/-- Program counter of the `playLoop` goroutine, naming the next
mutex-guarded critical section it will execute (`.idle` = no goroutine). -/
inductive Pc
  | idle
  /-- about to run `nextTrack` (top of the `for` loop). -/
  | callNext
  /-- `nextTrack` returned nil; about to mark the player idle and
  schedule the disconnect timer (`player.go` lines 177-184). -/
  | goIdle
  /-- about to install the fresh cancel handle and pause channel
  (`player.go` lines 190-194). -/
  | setCancel
  /-- `streamTrack` in flight. -/
  | streaming
  /-- about to clear the cancel handle and pause channel after
  `streamTrack` returned (`player.go` lines 198-202). -/
  | clearCancel
  deriving Repr, DecidableEq

structure PlayerState where
  queue : List Track := []
  current : Option Track := none
  loop : Bool := false
  playing : Bool := false
  paused : Bool := false
  skipRequested : Bool := false
  cancelPlayback : Bool := false
  cancelInvoked : Bool := false
  pauseChan : Bool := false
  pauseSignals : List Bool := []
  voice : Option String := none
  timerArmed : Bool := false
  pc : Pc := .idle
  deriving Repr, DecidableEq

/-- `NewPlayer`: zero value of every field. -/
def initPlayer : PlayerState := {}

/-- `Player.Enqueue`: append the track, cancel any pending idle-disconnect
timer, start a playback goroutine if none is active, and return
`len(p.queue)` after the append as the 1-based position. -/
def enqueue (s : PlayerState) (t : Track) : PlayerState × Nat :=
  let q := s.queue ++ [t]
  let position := q.length
  let s := { s with queue := q, timerArmed := false }
  let s := if s.playing then s else { s with playing := true, pc := Pc.callNext }
  (s, position)

/-- `Player.Skip`: if a cancel handle is present, set `skipRequested`,
clear `loop` and invoke the handle; return whether a track was current. -/
def skip (s : PlayerState) : PlayerState × Bool :=
  let active := s.current.isSome
  if s.cancelPlayback then
    ({ s with skipRequested := true, loop := false, cancelInvoked := true }, active)
  else
    (s, active)

/-- `Player.Pause`: no-op returning false unless `playing` with a current
track; otherwise flip `paused`, send the new value on the pause channel
when one exists, and return the new value. -/
def pause (s : PlayerState) : PlayerState × Bool :=
  if !s.playing || s.current.isNone then
    (s, false)
  else
    let p := !s.paused
    let s := { s with paused := p }
    let s := if s.pauseChan then { s with pauseSignals := s.pauseSignals ++ [p] } else s
    (s, p)

/-- `Player.Stop`: clear queue, current, loop and paused; if a cancel
handle is present, set `skipRequested` and invoke it; return whether
there was a current track or a non-empty queue. -/
def stop (s : PlayerState) : PlayerState × Bool :=
  let hadContent := s.current.isSome || !s.queue.isEmpty
  let s' := { s with queue := [], current := none, loop := false, paused := false }
  let s' := if s.cancelPlayback then
      { s' with skipRequested := true, cancelInvoked := true }
    else s'
  (s', hadContent)

/-- `Player.ToggleLoop`: with an explicit argument, set
`loop := explicit && current != nil`; without one, flip `loop` only when a
track is current; return the resulting value. -/
def toggleLoop (s : PlayerState) (explicit : Option Bool) : PlayerState × Bool :=
  match explicit with
  | some b =>
    let l := b && s.current.isSome
    ({ s with loop := l }, l)
  | none =>
    if s.current.isSome then
      ({ s with loop := !s.loop }, !s.loop)
    else
      (s, s.loop)

/-- `Player.Shutdown`: invoke the cancel handle when present and release
the voice transport.  (The disconnect timer is not touched.) -/
def shutdown (s : PlayerState) : PlayerState :=
  let s := if s.cancelPlayback then { s with cancelInvoked := true } else s
  { s with voice := none }

/-- `Player.nextTrack`: reset `skipRequested`; when `loop` is set and a
track is current, append it at the tail; then dequeue the head as the new
current track, or clear `current` when the queue is empty. -/
def nextTrack (s : PlayerState) : PlayerState × Option Track :=
  let q := match s.current with
    | some c => if s.loop then s.queue ++ [c] else s.queue
    | none => s.queue
  match q with
  | [] => ({ s with skipRequested := false, queue := [], current := none }, none)
  | t :: rest => ({ s with skipRequested := false, queue := rest, current := some t }, some t)

/-! ## Interleaving machine

An execution is a list of events folded over the state: command calls
(each holds the mutex for its whole body) interleaved with the playback
goroutine's critical sections, the `EnsureConnected` transport write, and
the firing of the idle-disconnect timer callback. -/

inductive Event
  | cmdEnqueue (t : Track)
  | cmdSkip
  | cmdPause
  | cmdStop
  | cmdToggleLoop (explicit : Option Bool)
  | cmdShutdown
  /-- successful `EnsureConnected(ch)`: binds the voice transport. -/
  | connect (ch : String)
  /-- `playLoop`: the `nextTrack` call. -/
  | taskNext
  /-- `playLoop`: mark idle and arm the disconnect timer (the
  `scheduleDisconnectLocked` call arms it unconditionally). -/
  | taskGoIdle
  /-- `playLoop`: install fresh cancel handle and pause channel. -/
  | taskSetCancel
  /-- `streamTrack` returns (with whatever outcome). -/
  | taskStreamEnd
  /-- `playLoop`: clear cancel handle and pause channel. -/
  | taskClearCancel
  /-- the idle-disconnect timer callback: release the transport and
  disarm (`time.AfterFunc` body, which also evicts the player from the
  registry). -/
  | timerFire
  deriving Repr, DecidableEq

def step (s : PlayerState) (e : Event) : PlayerState :=
  match e with
  | .cmdEnqueue t => (enqueue s t).1
  | .cmdSkip => (skip s).1
  | .cmdPause => (pause s).1
  | .cmdStop => (stop s).1
  | .cmdToggleLoop b => (toggleLoop s b).1
  | .cmdShutdown => shutdown s
  | .connect ch => { s with voice := some ch }
  | .taskNext =>
    if s.pc = Pc.callNext then
      let (s', t) := nextTrack s
      match t with
      | none => { s' with pc := Pc.goIdle }
      | some _ => { s' with pc := Pc.setCancel }
    else s
  | .taskGoIdle =>
    if s.pc = Pc.goIdle then
      { s with playing := false, paused := false, timerArmed := true, pc := Pc.idle }
    else s
  | .taskSetCancel =>
    if s.pc = Pc.setCancel then
      { s with cancelPlayback := true, cancelInvoked := false,
               pauseChan := true, pauseSignals := [], pc := Pc.streaming }
    else s
  | .taskStreamEnd =>
    if s.pc = Pc.streaming then { s with pc := Pc.clearCancel } else s
  | .taskClearCancel =>
    if s.pc = Pc.clearCancel then
      { s with cancelPlayback := false, pauseChan := false, pc := Pc.callNext }
    else s
  | .timerFire =>
    if s.timerArmed then { s with timerArmed := false, voice := none } else s

/-- Run an interleaving from the fresh player. -/
def run (events : List Event) : PlayerState :=
  events.foldl step initPlayer

/-- The sequence of tracks the playback loop would hand to the pipeline,
obtained by repeatedly calling `nextTrack`; the queue length bounds the
number of dequeues when `loop` is off. -/
def drainAux : Nat → PlayerState → List Track
  | 0, _ => []
  | fuel + 1, s =>
    match nextTrack s with
    | (s', some t) => t :: drainAux fuel s'
    | (_, none) => []

def drain (s : PlayerState) : List Track :=
  drainAux s.queue.length s

end Kvazar

namespace Kvazar

theorem pad2_length : ∀ n < 60, (pad2 n).length = 2 := by decide

theorem humanDuration_ne_live {t : Track} (h : t.duration ≠ 0) :
    t.humanDuration ≠ "live" := by
  intro hl
  unfold Track.humanDuration at hl
  rw [if_neg h] at hl
  have hm : t.duration / 1000000000 % 3600 / 60 < 60 := by omega
  have hs : t.duration / 1000000000 % 60 < 60 := by omega
  by_cases hh : t.duration / 1000000000 / 3600 > 0
  · rw [if_pos hh] at hl
    have hlen := congrArg String.length hl
    simp only [String.length_append] at hlen
    rw [pad2_length _ hm, pad2_length _ hs] at hlen
    have hc : (":" : String).length = 1 := rfl
    have hlive : ("live" : String).length = 4 := rfl
    rw [hc, hlive] at hlen
    omega
  · rw [if_neg hh] at hl
    have hlen := congrArg String.length hl
    simp only [String.length_append] at hlen
    have hlive : ("live" : String).length = 4 := rfl
    have hc : (":" : String).length = 1 := rfl
    rw [pad2_length _ hm, pad2_length _ hs, hc, hlive] at hlen
    omega

/-- C10: `HumanDuration` returns `"live"` exactly when the duration is
zero; a positive duration under one hour renders as zero-padded `MM:SS`
of the whole seconds (sub-second remainder truncated), and a duration of
one hour or more as `H:MM:SS` with zero-padded minutes and seconds. -/
theorem humanDuration_spec (t : Track) :
    (t.humanDuration = "live" ↔ t.duration = 0) ∧
    (0 < t.duration → t.duration < 3600 * 1000000000 →
      t.humanDuration =
        pad2 (t.duration / 1000000000 / 60) ++ ":" ++ pad2 (t.duration / 1000000000 % 60)) ∧
    (3600 * 1000000000 ≤ t.duration →
      t.humanDuration =
        toString (t.duration / 1000000000 / 3600) ++ ":" ++
        pad2 (t.duration / 1000000000 % 3600 / 60) ++ ":" ++
        pad2 (t.duration / 1000000000 % 60)) := by
  refine ⟨⟨fun hl => ?_, fun h0 => by simp [Track.humanDuration, h0]⟩, fun hpos hlt => ?_, fun hge => ?_⟩
  · by_contra hne
    exact humanDuration_ne_live hne hl
  · have hne : t.duration ≠ 0 := Nat.pos_iff_ne_zero.mp hpos
    have hsec : t.duration / 1000000000 < 3600 := by omega
    have hh : ¬ t.duration / 1000000000 / 3600 > 0 := by omega
    unfold Track.humanDuration
    rw [if_neg hne, if_neg hh, Nat.mod_eq_of_lt hsec]
  · have hne : t.duration ≠ 0 := by omega
    have hh : t.duration / 1000000000 / 3600 > 0 := by omega
    unfold Track.humanDuration
    rw [if_neg hne, if_pos hh]

theorem humanDuration_spec_witness :
    Track.humanDuration { duration := 0 } = "live" ∧
    Track.humanDuration { duration := 125000000000 } = "02:05" ∧
    Track.humanDuration { duration := 3725500000000 } = "1:02:05" := by
  refine ⟨(humanDuration_spec { duration := 0 }).1.mpr rfl, ?_, ?_⟩
  · have h := (humanDuration_spec { duration := 125000000000 }).2.1 (by norm_num) (by norm_num)
    rw [h]; rfl
  · have h := (humanDuration_spec { duration := 3725500000000 }).2.2 (by norm_num)
    rw [h]; rfl

end Kvazar

namespace Kvazar

theorem headersToLines_congr_perm {h₁ h₂ : List (String × String)} (h : h₁.Perm h₂) :
    headersToLines h₁ = headersToLines h₂ := by
  unfold headersToLines
  by_cases he : h₁ = []
  · subst he
    rw [h.nil_eq]
  · have he₂ : h₂ ≠ [] := fun h0 => he (by subst h0; exact h.eq_nil)
    rw [if_neg he, if_neg he₂, mergeSort_strLe_congr_perm (h.map headerLine)]

theorem headersToLines_ne_empty {headers : List (String × String)} (h : headers ≠ []) :
    headersToLines headers ≠ "" := by
  intro h0
  unfold headersToLines at h0
  rw [if_neg h] at h0
  have hlen := congrArg String.length h0
  simp only [String.length_append] at hlen
  have hc : ("\r\n" : String).length = 2 := rfl
  have hz : ("" : String).length = 0 := rfl
  rw [hc, hz] at hlen
  omega

/-- C9: the decode-subprocess argument list is a deterministic function of
the track: header maps equal as key-value sets serialize identically;
the args begin with the network auto-reconnect flags; with no headers no
`-headers` argument is emitted, with headers exactly one is, whose value
is the sorted `"K: V"` lines joined by CRLF plus a trailing CRLF; the
output format flags select s16le PCM, 2 channels, 48000 Hz; and the
pipeline reads 960·2·2 = 3840-byte (20 ms) frames and encodes at a fixed
128000 bps bitrate. -/
theorem ffmpegArgs_spec (t : Track) (h₁ h₂ : List (String × String)) (hperm : h₁.Perm h₂) :
    buildFFMpegArgs { t with httpHeaders := h₁ } = buildFFMpegArgs { t with httpHeaders := h₂ } ∧
    (buildFFMpegArgs t).take 6 = reconnectArgs ∧
    (t.httpHeaders = [] → buildFFMpegArgs t = reconnectArgs ++ outputArgs t) ∧
    (t.httpHeaders ≠ [] → ∃ ls : List String,
      ls.Perm (t.httpHeaders.map headerLine) ∧
      List.Pairwise (fun a b => strLe a b = true) ls ∧
      buildFFMpegArgs t =
        reconnectArgs ++ ["-headers", String.intercalate "\r\n" ls ++ "\r\n"] ++ outputArgs t) ∧
    outputArgs t = ["-i", t.streamURL, "-vn", "-af", "loudnorm=I=-16:LRA=11:TP=-1.5",
      "-f", "s16le", "-ac", "2", "-ar", "48000", "pipe:1"] ∧
    byteBufLen = pcmFrameSize * pcmChannelCount * 2 ∧
    byteBufLen = 3840 ∧
    pcmFrameSize * 1000 = 20 * sampleRate ∧
    opusBitrate = 128000 := by
  refine ⟨?_, ?_, fun he => ?_, fun hne => ?_, rfl, rfl, rfl, rfl, rfl⟩
  · simp only [buildFFMpegArgs]
    rw [headersToLines_congr_perm hperm]
    simp [outputArgs]
  · unfold buildFFMpegArgs
    by_cases hl : headersToLines t.httpHeaders = "" <;>
      simp [hl, reconnectArgs, outputArgs, List.take]
  · simp only [buildFFMpegArgs]
    rw [show headersToLines t.httpHeaders = "" from by rw [headersToLines, if_pos he]]
    simp
  · refine ⟨(t.httpHeaders.map headerLine).mergeSort strLe,
      List.mergeSort_perm _ _,
      List.sorted_mergeSort (fun a b c => strLe_trans a b c) strLe_total _, ?_⟩
    have hv : headersToLines t.httpHeaders =
        String.intercalate "\r\n" ((t.httpHeaders.map headerLine).mergeSort strLe) ++ "\r\n" := by
      rw [headersToLines, if_neg hne]
    simp only [buildFFMpegArgs]
    rw [if_neg (headersToLines_ne_empty hne), hv]

theorem ffmpegArgs_spec_witness :
    buildFFMpegArgs { streamURL := "http://s", httpHeaders := [("B", "2"), ("A", "1")] } =
    buildFFMpegArgs { streamURL := "http://s", httpHeaders := [("A", "1"), ("B", "2")] } :=
  (ffmpegArgs_spec { streamURL := "http://s", httpHeaders := [("B", "2"), ("A", "1")] }
    [("B", "2"), ("A", "1")] [("A", "1"), ("B", "2")]
    (List.Perm.swap ("A", "1") ("B", "2") [])).1

end Kvazar

namespace Kvazar

/-! ## Frame pipeline terminal outcome (`streamTrack`, `playLoop`)

`streamTrack`'s read/encode/send loop is abstracted as the sequence of
observations it makes, one per iteration: a full frame read, encoded and
delivered; end-of-stream (`io.EOF`) or a short final read
(`io.ErrUnexpectedEOF`) from `io.ReadFull`; some other read error; an
encode error; or cancellation (observed at the loop top via `ctx.Err()`,
while paused via `ctx.Done()`, or at the frame send `select`). -/

inductive ReadEvent
  | frame
  | eof
  | shortRead
  | readErr
  | encodeErr
  | cancel
  deriving Repr, DecidableEq

/-- Terminal outcome of one pipeline invocation: `streamTrack` returns
`nil` (completed), `context.Canceled`, or some other error (failed). -/
inductive Outcome
  | completed
  | canceled
  | failed
  deriving Repr, DecidableEq

/-- The outcome `streamTrack` reports for a given observation sequence:
`io.EOF` and `io.ErrUnexpectedEOF` return `nil`; other read errors and
encode errors return a wrapped error; observed cancellation returns
`context.Canceled`; an exhausted sequence is end-of-stream. -/
def streamOutcome : List ReadEvent → Outcome
  | [] => Outcome.completed
  | ReadEvent.frame :: rest => streamOutcome rest
  | ReadEvent.eof :: _ => Outcome.completed
  | ReadEvent.shortRead :: _ => Outcome.completed
  | ReadEvent.readErr :: _ => Outcome.failed
  | ReadEvent.encodeErr :: _ => Outcome.failed
  | ReadEvent.cancel :: _ => Outcome.canceled

/-- What `playLoop` does with `streamTrack`'s outcome (`player.go` lines
204-210): `(advances to the next track, logs a playback error)`.
`context.Canceled` hits the `continue` without logging; any other error
is logged; in every case the loop proceeds to the next `nextTrack` call
rather than terminating. -/
def handleOutcome : Outcome → Bool × Bool
  | Outcome.completed => (true, false)
  | Outcome.canceled => (true, false)
  | Outcome.failed => (true, true)

theorem streamOutcome_frames (n : Nat) (l : List ReadEvent) :
    streamOutcome (List.replicate n ReadEvent.frame ++ l) = streamOutcome l := by
  induction n with
  | zero => rfl
  | succ k ih => simpa [List.replicate, streamOutcome] using ih

/-- C8: after any number of delivered frames, end-of-stream — including a
short final read — yields `completed`; observed cancellation yields
`canceled`, which the playback task treats as advance-immediately and
never as an error to log; a mid-stream read or encode error yields
`failed`, which is logged and also advances to the next queued track. -/
theorem pipeline_outcome_spec (n : Nat) (rest : List ReadEvent) :
    streamOutcome (List.replicate n ReadEvent.frame ++ [ReadEvent.eof]) = Outcome.completed ∧
    streamOutcome (List.replicate n ReadEvent.frame ++ [ReadEvent.shortRead]) = Outcome.completed ∧
    streamOutcome (List.replicate n ReadEvent.frame) = Outcome.completed ∧
    streamOutcome (List.replicate n ReadEvent.frame ++ ReadEvent.cancel :: rest) = Outcome.canceled ∧
    streamOutcome (List.replicate n ReadEvent.frame ++ ReadEvent.readErr :: rest) = Outcome.failed ∧
    streamOutcome (List.replicate n ReadEvent.frame ++ ReadEvent.encodeErr :: rest) = Outcome.failed ∧
    handleOutcome Outcome.canceled = (true, false) ∧
    handleOutcome Outcome.failed = (true, true) ∧
    handleOutcome Outcome.completed = (true, false) := by
  refine ⟨?_, ?_, ?_, ?_, ?_, ?_, rfl, rfl, rfl⟩ <;>
    first
      | (rw [streamOutcome_frames]; rfl)
      | (rw [show List.replicate n ReadEvent.frame =
               List.replicate n ReadEvent.frame ++ [] from (List.append_nil _).symm,
             streamOutcome_frames]; rfl)

end Kvazar

namespace Kvazar

/-- A player mid-stream: playing a current track with a live cancel
handle and pause channel (witness configuration). -/
def activePlayer : PlayerState :=
  { queue := [], current := some { title := "A", duration := 30000000000 },
    playing := true, cancelPlayback := true, pauseChan := true, pc := Pc.streaming }

/-- Like `activePlayer`, with loop enabled (witness configuration). -/
def streamingPlayer : PlayerState :=
  { activePlayer with loop := true }

end Kvazar

namespace Kvazar

/-- C5: `ToggleLoop(explicit)` sets `loop` to
`explicit AND current-is-present` and returns it; `ToggleLoop()` flips
`loop` only when a track is current and returns the resulting value. -/
theorem toggleLoop_spec (s : PlayerState) (e : Bool) :
    (toggleLoop s (some e)).2 = (e && s.current.isSome) ∧
    (toggleLoop s (some e)).1.loop = (e && s.current.isSome) ∧
    (toggleLoop s (some e)).1 = { s with loop := e && s.current.isSome } ∧
    (toggleLoop s none).2 = (if s.current.isSome then !s.loop else s.loop) ∧
    (toggleLoop s none).1.loop = (if s.current.isSome then !s.loop else s.loop) := by
  by_cases hc : s.current.isSome <;> simp [toggleLoop, hc]

/-- C4: `Stop()` empties the queue, clears `current`, `loop` and
`paused`, invokes the cancellation handle exactly when one is present,
returns whether there was a current track or a queued one, and the
playback task's next dequeue finds nothing (so nothing auto-plays). -/
theorem stop_spec (s : PlayerState) :
    (stop s).1.queue = [] ∧
    (stop s).1.current = none ∧
    (stop s).1.loop = false ∧
    (stop s).1.paused = false ∧
    (stop s).2 = (s.current.isSome || !s.queue.isEmpty) ∧
    (stop s).1.cancelInvoked = (s.cancelInvoked || s.cancelPlayback) ∧
    (nextTrack (stop s).1).2 = none := by
  by_cases hc : s.cancelPlayback <;> simp [stop, nextTrack, hc]

/-- C6: `Pause()` is a no-op returning false when nothing is playing (no
active playback task or no current track); on an active player it flips
`paused`, sends the new value on the pause channel, and returns it, so
three consecutive calls starting unpaused return true, false, true. -/
theorem pause_spec (s₀ s : PlayerState)
    (h₀ : s₀.playing = false ∨ s₀.current = none)
    (hp : s.playing = true) (hc : s.current.isSome = true) (hpa : s.paused = false) :
    pause s₀ = (s₀, false) ∧
    (pause s).2 = true ∧
    (pause s).1.paused = true ∧
    (pause (pause s).1).2 = false ∧
    (pause (pause (pause s).1).1).2 = true ∧
    (s.pauseChan = true → (pause s).1.pauseSignals = s.pauseSignals ++ [true]) := by
  obtain ⟨c, hcur⟩ := Option.isSome_iff_exists.mp hc
  constructor
  · rcases h₀ with h | h <;> simp [pause, h, Option.isNone_iff_eq_none]
  · by_cases hch : s.pauseChan <;>
      simp [pause, hp, hpa, hch, hcur]

theorem pause_spec_witness :
    pause initPlayer = (initPlayer, false) ∧
    (pause activePlayer).2 = true ∧
    (pause (pause activePlayer).1).2 = false ∧
    (pause (pause (pause activePlayer).1).1).2 = true := by
  have h := pause_spec initPlayer activePlayer (Or.inl rfl) rfl rfl rfl
  exact ⟨h.1, h.2.1, h.2.2.2.1, h.2.2.2.2.1⟩

/-- C7: `Skip()` in the Idle configuration (no current track, no pipeline
cancel handle) returns false and changes nothing at all; with a track
active (current set, cancel handle live) it clears `loop`, invokes the
handle, leaves the queue and current track in place, and returns true. -/
theorem skip_spec (s₁ s₂ : PlayerState)
    (h₁c : s₁.current = none) (h₁x : s₁.cancelPlayback = false)
    (h₂c : s₂.current.isSome = true) (h₂x : s₂.cancelPlayback = true) :
    skip s₁ = (s₁, false) ∧
    (skip s₂).2 = true ∧
    (skip s₂).1.loop = false ∧
    (skip s₂).1.cancelInvoked = true ∧
    (skip s₂).1.queue = s₂.queue ∧
    (skip s₂).1.current = s₂.current := by
  refine ⟨?_, ?_⟩
  · simp [skip, h₁c, h₁x]
  · simp [skip, h₂c, h₂x]

theorem skip_spec_witness :
    skip initPlayer = (initPlayer, false) ∧
    (skip streamingPlayer).2 = true ∧
    (skip streamingPlayer).1.loop = false := by
  have h := skip_spec initPlayer streamingPlayer rfl rfl rfl rfl
  exact ⟨h.1, h.2.1, h.2.2.1⟩

end Kvazar

namespace Kvazar

/-- Witness track "A" (30 s). -/
def trackA : Track := { title := "A", duration := 30000000000 }

/-- Witness track "B" (live). -/
def trackB : Track := { title := "B" }

/-- Interleaving that reaches the state "A is current, queue empty":
connect, enqueue A, dequeue A, install the cancel handle. -/
def playingATrace : List Event :=
  [Event.connect "vc", Event.cmdEnqueue trackA, Event.taskNext, Event.taskSetCancel]

/-- C1 counterexample: while A is current on an otherwise empty player,
`Enqueue(B)` returns 1 — the length of the queue after the append — and
not 2 as the claim's "(length of the queue after the append) + 1 when a
track is current" would require. -/
theorem enqueue_position_counterexample :
    (run playingATrace).current = some trackA ∧
    (run playingATrace).queue = [] ∧
    (enqueue (run playingATrace) trackB).2 = 1 ∧
    (enqueue (run playingATrace) trackB).1.queue.length + 1 = 2 ∧
    ¬ (enqueue (run playingATrace) trackB).2 = 2 := by
  decide

/-- C1 amended: `Enqueue(track)` appends the track, cancels any pending
idle-disconnect timer, starts a playback task if none is active, and
returns the length of the queue after the append — the 1-based position
among the *queued* tracks, not counting a currently playing track. -/
theorem enqueue_spec (s : PlayerState) (t : Track) :
    (enqueue s t).1.queue = s.queue ++ [t] ∧
    (enqueue s t).2 = s.queue.length + 1 ∧
    (enqueue s t).1.timerArmed = false ∧
    (enqueue s t).1.playing = true ∧
    (enqueue s t).1.pc = (if s.playing then s.pc else Pc.callNext) ∧
    (enqueue s t).1.current = s.current := by
  by_cases hp : s.playing <;> simp [enqueue, hp]

end Kvazar

namespace Kvazar

/-- An idle player with two queued tracks (witness configuration). -/
def fifoPlayer : PlayerState := { initPlayer with queue := [trackA, trackB] }

end Kvazar

namespace Kvazar

/-- With loop off, repeated `nextTrack` calls hand out exactly the queue,
in order. -/
theorem drain_eq_queue : ∀ (q : List Track) (s : PlayerState),
    s.loop = false → s.queue = q → drain s = q
  | [], s, hl, hq => by
    cases hc : s.current <;> simp [drain, drainAux, nextTrack, hl, hq, hc]
  | t :: rest, s, hl, hq => by
    have hnext : nextTrack s =
        ({ s with skipRequested := false, queue := rest, current := some t }, some t) := by
      cases hc : s.current <;> simp [nextTrack, hl, hq, hc]
    have ih := drain_eq_queue rest
      { s with skipRequested := false, queue := rest, current := some t } hl rfl
    simp only [drain, hq, List.length_cons, drainAux, hnext]
    simp only [drain] at ih
    rw [ih]

/-- C3: within one guild tracks play in FIFO enqueue order — enqueues
append in call order and, with loop off, `nextTrack` hands out the queue
front-to-back — and when `loop` is set with a current track, the track is
re-inserted at the tail exactly once per pipeline completion before the
head is dequeued as the new current track; `loop` itself survives the
completion, while `Stop`, `Skip` (with an active pipeline) and
`ToggleLoop(false)` clear it. -/
theorem queue_order_spec (s₁ s₂ : PlayerState) (c : Track) (ts : List Track)
    (h₁ : s₁.loop = true) (hc : s₁.current = some c)
    (h₂l : s₂.loop = false) :
    ((ts.foldl (fun s t => (enqueue s t).1) s₂).queue = s₂.queue ++ ts) ∧
    (drain s₂ = s₂.queue) ∧
    ((nextTrack s₁).1.queue = (s₁.queue ++ [c]).tail) ∧
    ((nextTrack s₁).1.current = (s₁.queue ++ [c]).head?) ∧
    ((nextTrack s₁).2 = (s₁.queue ++ [c]).head?) ∧
    ((nextTrack s₁).1.loop = true) ∧
    ((stop s₁).1.loop = false) ∧
    ((toggleLoop s₁ (some false)).1.loop = false) ∧
    (s₁.cancelPlayback = true → (skip s₁).1.loop = false) := by
  refine ⟨?_, drain_eq_queue _ s₂ h₂l rfl, ?_, ?_, ?_, ?_, ?_, ?_, fun hx => ?_⟩
  · induction ts generalizing s₂ with
    | nil => simp
    | cons t ts ih =>
      have step1 : ((enqueue s₂ t).1).queue = s₂.queue ++ [t] := by
        by_cases hp : s₂.playing <;> simp [enqueue, hp]
      have stepl : ((enqueue s₂ t).1).loop = s₂.loop := by
        by_cases hp : s₂.playing <;> simp [enqueue, hp]
      simp only [List.foldl_cons]
      rw [ih ((enqueue s₂ t).1) (stepl.trans h₂l), step1, List.append_assoc]
      rfl
  · rcases hq : s₁.queue with _ | ⟨t, rest⟩ <;> simp [nextTrack, h₁, hc, hq]
  · rcases hq : s₁.queue with _ | ⟨t, rest⟩ <;> simp [nextTrack, h₁, hc, hq]
  · rcases hq : s₁.queue with _ | ⟨t, rest⟩ <;> simp [nextTrack, h₁, hc, hq]
  · rcases hq : s₁.queue with _ | ⟨t, rest⟩ <;> simp [nextTrack, h₁, hc, hq]
  · by_cases hx : s₁.cancelPlayback <;> simp [stop, hx]
  · simp [toggleLoop]
  · simp [skip, hx]

theorem queue_order_spec_witness :
    ((List.foldl (fun s t => (enqueue s t).1) fifoPlayer [trackB]).queue =
      [trackA, trackB, trackB]) ∧
    (drain fifoPlayer = [trackA, trackB]) ∧
    ((nextTrack streamingPlayer).1.queue = []) ∧
    ((nextTrack streamingPlayer).1.current = some trackA) ∧
    ((nextTrack streamingPlayer).1.loop = true) := by
  have h := queue_order_spec streamingPlayer fifoPlayer trackA [trackB] rfl rfl rfl
  exact ⟨h.1, h.2.1, h.2.2.1, h.2.2.2.1, h.2.2.2.2.2.1⟩

end Kvazar

namespace Kvazar

/-- Every atomic critical section preserves "an armed idle-disconnect
timer implies no active playback task": `Enqueue` disarms the timer when
it sets `playing`; the loop's idle transition clears `playing` in the
same critical section that arms the timer; the timer callback disarms. -/
theorem step_preserves_timer_inv (s : PlayerState) (e : Event)
    (h : s.timerArmed = true → s.playing = false) :
    (step s e).timerArmed = true → (step s e).playing = false := by
  cases e with
  | cmdEnqueue t => by_cases hp : s.playing <;> simp [step, enqueue, hp]
  | cmdSkip => by_cases hx : s.cancelPlayback <;> simpa [step, skip, hx] using h
  | cmdPause =>
    rcases hcur : s.current with _ | c <;> by_cases hp : s.playing <;>
      by_cases hch : s.pauseChan <;> simpa [step, pause, hcur, hp, hch] using h
  | cmdStop => by_cases hx : s.cancelPlayback <;> simpa [step, stop, hx] using h
  | cmdToggleLoop b =>
    rcases b with _ | b <;> by_cases hc : s.current.isSome <;>
      simpa [step, toggleLoop, hc] using h
  | cmdShutdown => by_cases hx : s.cancelPlayback <;> simpa [step, shutdown, hx] using h
  | connect ch => simpa [step] using h
  | taskNext =>
    by_cases hpc : s.pc = Pc.callNext
    · rcases hcur : s.current with _ | c <;> by_cases hl : s.loop <;>
        rcases hq : s.queue with _ | ⟨t, rest⟩ <;>
        simpa [step, nextTrack, hpc, hcur, hl, hq] using h
    · simpa [step, hpc] using h
  | taskGoIdle => by_cases hpc : s.pc = Pc.goIdle <;> simpa [step, hpc] using h
  | taskSetCancel => by_cases hpc : s.pc = Pc.setCancel <;> simpa [step, hpc] using h
  | taskStreamEnd => by_cases hpc : s.pc = Pc.streaming <;> simpa [step, hpc] using h
  | taskClearCancel => by_cases hpc : s.pc = Pc.clearCancel <;> simpa [step, hpc] using h
  | timerFire => by_cases ht : s.timerArmed <;> simpa [step, ht] using h

theorem foldl_preserves_timer_inv : ∀ (evs : List Event) (s : PlayerState),
    (s.timerArmed = true → s.playing = false) →
    ((evs.foldl step s).timerArmed = true → (evs.foldl step s).playing = false)
  | [], _, h => h
  | e :: evs, s, h =>
    foldl_preserves_timer_inv evs (step s e) (step_preserves_timer_inv s e h)

/-- Interleaving that goes idle without a transport ever being bound:
enqueue A, dequeue it, stream it (which fails — no voice connection —
but that has the same shape), clean up, find the queue empty and go
idle. `scheduleDisconnectLocked` arms the timer anyway. -/
def timerNoVoiceTrace : List Event :=
  [Event.cmdEnqueue trackA, Event.taskNext, Event.taskSetCancel,
   Event.taskStreamEnd, Event.taskClearCancel, Event.taskNext, Event.taskGoIdle]

/-- The same run with a transport bound, followed by `Shutdown`, which
releases the transport without stopping the timer. -/
def timerShutdownTrace : List Event :=
  [Event.connect "vc", Event.cmdEnqueue trackA, Event.taskNext, Event.taskSetCancel,
   Event.taskStreamEnd, Event.taskClearCancel, Event.taskNext, Event.taskGoIdle,
   Event.cmdShutdown]

/-- C2 counterexample: the claimed "armed iff not playing and a transport
is held" fails in two reachable states — the playback loop arms the timer
on the transition to idle even when no transport is bound, and `Shutdown`
releases the transport while leaving the timer armed. -/
theorem idle_timer_counterexample :
    ((run timerNoVoiceTrace).timerArmed = true ∧ (run timerNoVoiceTrace).voice = none) ∧
    ((run timerShutdownTrace).timerArmed = true ∧ (run timerShutdownTrace).voice = none) := by
  decide

/-- C2 amended: in every reachable state an armed idle-disconnect timer
implies `playing = false` (but not conversely, and independently of the
transport): `Enqueue` disarms any pending timer, the playback loop arms
it on every transition to idle — whether or not a transport is bound —
the timer firing disarms it, and `Shutdown` leaves it untouched. -/
theorem idle_timer_spec :
    (∀ evs : List Event, (run evs).timerArmed = true → (run evs).playing = false) ∧
    (∀ (s : PlayerState) (t : Track), (enqueue s t).1.timerArmed = false) ∧
    (∀ s : PlayerState, s.pc = Pc.goIdle →
      (step s Event.taskGoIdle).timerArmed = true ∧
      (step s Event.taskGoIdle).playing = false) ∧
    (∀ s : PlayerState, (step s Event.timerFire).timerArmed = false) ∧
    (∀ s : PlayerState, (shutdown s).timerArmed = s.timerArmed) := by
  refine ⟨fun evs => foldl_preserves_timer_inv evs initPlayer (fun _ => rfl),
    fun s t => ?_, fun s hpc => ?_, fun s => ?_, fun s => ?_⟩
  · by_cases hp : s.playing <;> simp [enqueue, hp]
  · simp [step, hpc]
  · by_cases ht : s.timerArmed <;> simp [step, ht]
  · by_cases hx : s.cancelPlayback <;> simp [shutdown, hx]

theorem idle_timer_spec_witness :
    (run timerNoVoiceTrace).playing = false ∧
    (step { initPlayer with pc := Pc.goIdle } Event.taskGoIdle).timerArmed = true := by
  refine ⟨idle_timer_spec.1 timerNoVoiceTrace (by decide), (idle_timer_spec.2.2.1 _ rfl).1⟩

end Kvazar
